import Mathlib

/-!
Verification development for the incremental visual-compatibility engine
of this repository (src/backend/services/similarity_service.py together
with the frame loaders of src/backend/services/frame_extractor.py).

The embedding is shallow:
* Python dicts (which preserve insertion order and have unique keys) are
  association lists `List (String × α)`; `d[k] = v`, `d.get(k)`,
  `d.pop(k, None)` and `d.setdefault(k, v)` become `setKV`, `lookupKV`,
  `popKV` and `setdefaultRow`.
* Frame arrays are abstract: the engine never inspects them, it only
  feeds them to the two external measures.  The external world
  (cv2.imread on the file system, skimage compare_ssim, the cv2 HSV
  histogram correlation) is a record `Env`; `fsGray p = none` models
  `cv2.imread` returning `None` for path `p` (whereupon
  `load_frame_array` raises `FileNotFoundError`).
* Scores are exact rationals; Python float `round(x, 4)` is modelled by
  `round4` (round half to even at four decimal places).
* A raised exception is `Except.error s`, carrying the module state at
  the moment the exception propagates (partial cache writes included).
* `json.dumps`/`json.loads` of the matrix file are modelled on a JSON
  syntax tree: `_save_matrix` produces the tree that would be printed,
  `_load_matrix` parses such a tree back.
-/

namespace SimilarityService

/-- Python dict lookup `d.get(k)`: the value at the first (unique) matching
key, if any. -/
def lookupKV {α : Type} : List (String × α) → String → Option α
  | [], _ => none
  | (k', v) :: rest, k => if k' = k then some v else lookupKV rest k

/-- Python dict assignment `d[k] = v`: replace in place if the key is
present, otherwise append at the end (dicts preserve insertion order). -/
def setKV {α : Type} : List (String × α) → String → α → List (String × α)
  | [], k, v => [(k, v)]
  | (k', v') :: rest, k, v =>
    if k' = k then (k, v) :: rest else (k', v') :: setKV rest k v

/-- Python dict removal `d.pop(k, None)`: drop the entry with key `k`
(no-op when absent, never raises). -/
def popKV {α : Type} (l : List (String × α)) (k : String) : List (String × α) :=
  l.filter (fun p => p.1 ≠ k)

/-- `list(dict.fromkeys(l))`: deduplicate keeping the first occurrence,
preserving order (similarity_service.py line 75). -/
def dedupKeepFirst (l : List String) : List String :=
  l.foldl (fun acc x => if x ∈ acc then acc else acc ++ [x]) []

/-- One row of the similarity matrix: `{ first_owner_id: score }`. -/
abbrev Row : Type := List (String × ℚ)

/-- The similarity matrix `_matrix : { last_owner_id: { first_owner_id: score } }`
(similarity_service.py line 38). -/
abbrev Matrix : Type := List (String × Row)

/-- `_matrix.get(a_id, {})` (similarity_service.py line 84 and 122). -/
def matGet (m : Matrix) (a : String) : Row := (lookupKV m a).getD []

/-- `_matrix.setdefault(nid, {})` (similarity_service.py line 79). -/
def setdefaultRow (m : Matrix) (nid : String) : Matrix :=
  match lookupKV m nid with
  | some _ => m
  | none => m ++ [(nid, [])]

/-- The mutable module state of similarity_service.py: the grayscale frame
cache, the colour frame cache, and the similarity matrix (lines 34-38).
`G` and `C` are the abstract types of grayscale and colour frame arrays. -/
structure EngineState (G C : Type) where
  frameCache : List (String × G)
  colorCache : List (String × C)
  matrix : Matrix

/-- The external world as the engine sees it:
* `fsGray p` is what `cv2.imread(p, IMREAD_GRAYSCALE)` (resized and
  normalised by `load_frame_array`) yields — `none` when the file is
  missing or unreadable;
* `fsColor p` likewise for `cv2.imread(p, IMREAD_COLOR)`;
* `zeroColor` is the all-zeros array `np.zeros((*size, 3), uint8)`;
* `ssim` is `_ssim` (skimage `structural_similarity`, a pure function of
  the two grayscale arrays);
* `hist` is `_hist_similarity` on two present colour arrays (the cv2 HSV
  histogram-correlation average). -/
structure Env (G C : Type) where
  fsGray : String → Option G
  fsColor : String → Option C
  zeroColor : C
  ssim : G → G → ℚ
  hist : C → C → ℚ

/-- frame_extractor.py lines 94-99: `load_frame_array` raises
`FileNotFoundError` when `cv2.imread` returns `None`; modelled as `none`. -/
def load_frame_array {G C : Type} (env : Env G C) (frame_path : String) : Option G :=
  env.fsGray frame_path

/-- frame_extractor.py lines 102-107: `load_color_frame_array` returns the
all-zeros array instead of raising when the image is unreadable. -/
def load_color_frame_array {G C : Type} (env : Env G C) (frame_path : String) : C :=
  match env.fsColor frame_path with
  | none => env.zeroColor
  | some img => img

/-- Round half to even (Python `round` tie behaviour) to an integer. -/
def roundHalfEven (x : ℚ) : ℤ :=
  let f := ⌊x⌋
  let r := x - f
  if r < 1/2 then f
  else if 1/2 < r then f + 1
  else if 2 ∣ f then f else f + 1

/-- `round(score, 4)` (similarity_service.py line 95). -/
def round4 (q : ℚ) : ℚ := (roundHalfEven (q * 10000) : ℚ) / 10000

/-- `_combined_score` (similarity_service.py lines 208-221):
`0.6 * max(0, ssim) + 0.4 * max(0, hist)`, the colour term being `0`
when either colour array is `None`. -/
def _combined_score {G C : Type} (env : Env G C)
    (a_gray b_gray : G) (a_color b_color : Option C) : ℚ :=
  let ssim_score := max 0 (env.ssim a_gray b_gray)
  let hist_score :=
    match a_color, b_color with
    | some ac, some bc => max 0 (env.hist ac bc)
    | _, _ => 0
  0.6 * ssim_score + 0.4 * hist_score

/-- The body of the pairwise loop of `register_node` (similarity_service.py
lines 82-95), acting on the pair (matrix, trace); the trace records every
pair whose score is actually computed (one entry per `_combined_score`
call).  The row `a_id` is guaranteed to exist by the `setdefault` pass, so
the assignment `_matrix[a_id][b_id] = ...` is `setKV` on that row. -/
def scoreStep {G C : Type} (env : Env G C)
    (fc : List (String × G)) (cc : List (String × C)) (node_id : String)
    (acc : Matrix × List (String × String)) (a_id b_id : String) :
    Matrix × List (String × String) :=
  if (lookupKV (matGet acc.1 a_id) b_id).isSome then acc
  else if a_id ≠ node_id ∧ b_id ≠ node_id then acc
  else
    match lookupKV fc (a_id ++ "_last"), lookupKV fc (b_id ++ "_first") with
    | some a_last_gray, some b_first_gray =>
      let score := _combined_score env a_last_gray b_first_gray
        (lookupKV cc (a_id ++ "_last")) (lookupKV cc (b_id ++ "_first"))
      (setKV acc.1 a_id (setKV (matGet acc.1 a_id) b_id (round4 score)),
        acc.2 ++ [(a_id, b_id)])
    | _, _ => acc

/-- `register_node` (similarity_service.py lines 62-97), instrumented with
the trace of computed pairs.  `Except.error s` is a raised
`FileNotFoundError` from a grayscale load, with `s` the module state at
that moment (the matrix is not yet touched there).  The `_save_matrix()`
call persists `res.1`; persistence itself is modelled by
`_save_matrix`/`_load_matrix` below. -/
def register_core {G C : Type} (env : Env G C) (st : EngineState G C)
    (node_id first_frame_path last_frame_path : String) :
    Except (EngineState G C) (EngineState G C × List (String × String)) :=
  match load_frame_array env first_frame_path with
  | none => Except.error st
  | some g_first =>
    let st1 : EngineState G C :=
      { st with frameCache := setKV st.frameCache (node_id ++ "_first") g_first }
    match load_frame_array env last_frame_path with
    | none => Except.error st1
    | some g_last =>
      let st2 : EngineState G C :=
        { st1 with frameCache := setKV st1.frameCache (node_id ++ "_last") g_last }
      let c_first := load_color_frame_array env first_frame_path
      let c_last := load_color_frame_array env last_frame_path
      let st3 : EngineState G C :=
        { st2 with colorCache := setKV (setKV st2.colorCache (node_id ++ "_first") c_first) (node_id ++ "_last") c_last }
      let existing_ids := dedupKeepFirst (st3.matrix.map Prod.fst ++ [node_id])
      let m0 := existing_ids.foldl setdefaultRow st3.matrix
      let res := existing_ids.foldl
        (fun acc a_id => existing_ids.foldl
          (fun acc b_id => scoreStep env st3.frameCache st3.colorCache node_id acc a_id b_id)
          acc)
        (m0, ([] : List (String × String)))
      Except.ok ({ st3 with matrix := res.1 }, res.2)

/-- `register_node` as the caller sees it (the trace dropped). -/
def register_node {G C : Type} (env : Env G C) (st : EngineState G C)
    (node_id first_frame_path last_frame_path : String) :
    Except (EngineState G C) (EngineState G C) :=
  match register_core env st node_id first_frame_path last_frame_path with
  | Except.error s => Except.error s
  | Except.ok (s, _) => Except.ok s

/-- The state carried by either outcome of `register_node`. -/
def stateOf {G C : Type} :
    Except (EngineState G C) (EngineState G C) → EngineState G C
  | Except.error s => s
  | Except.ok s => s

/-- `remove_node` (similarity_service.py lines 100-110). -/
def remove_node {G C : Type} (st : EngineState G C) (node_id : String) :
    EngineState G C :=
  let m1 := popKV st.matrix node_id
  let m2 := m1.map (fun p => (p.1, popKV p.2 node_id))
  { frameCache := popKV (popKV st.frameCache (node_id ++ "_first")) (node_id ++ "_last")
    colorCache := popKV (popKV st.colorCache (node_id ++ "_first")) (node_id ++ "_last")
    matrix := m2 }

/-- `DEFAULT_THRESHOLD = 0.75` (similarity_service.py line 29). -/
def DEFAULT_THRESHOLD : ℚ := 0.75

/-- One element of a query response: `{"node_id": ..., "side": ..., "score": ...}`. -/
structure QueryResult where
  node_id : String
  side : String
  score : ℚ
deriving DecidableEq

/-- `get_compatible_targets` (similarity_service.py lines 113-127). -/
def get_compatible_targets (m : Matrix) (source_id : String) (threshold : ℚ) :
    List QueryResult :=
  (matGet m source_id).filterMap
    (fun p => if p.2 ≥ threshold then some ⟨p.1, "left", p.2⟩ else none)

/-- `get_compatible_sources` (similarity_service.py lines 130-143); note
the `row.get(target_id, 0)` default. -/
def get_compatible_sources (m : Matrix) (target_id : String) (threshold : ℚ) :
    List QueryResult :=
  m.filterMap
    (fun p => if (lookupKV p.2 target_id).getD 0 ≥ threshold
      then some ⟨p.1, "right", (lookupKV p.2 target_id).getD 0⟩ else none)

/-- `get_full_matrix` (similarity_service.py lines 146-148): a defensive
copy `{k: dict(v) ...}`; copying is the identity on pure lists. -/
def get_full_matrix (m : Matrix) : Matrix :=
  m.map (fun p => (p.1, p.2.map (fun q => q)))

/-- The JSON values `json.dumps` can receive from the matrix store. -/
inductive Json : Type
  | num (q : ℚ)
  | obj (fields : List (String × Json))

/-- `_save_matrix` (similarity_service.py lines 50-52): the JSON tree
written to `uploads/similarity_cache.json`. -/
def _save_matrix (m : Matrix) : Json :=
  Json.obj (m.map (fun p => (p.1, Json.obj (p.2.map (fun q => (q.1, Json.num q.2))))))

/-- Read one serialized row back. -/
def decodeEntries : List (String × Json) → Option Row
  | [] => some []
  | (k, Json.num q) :: rest => (decodeEntries rest).map (fun r => (k, q) :: r)
  | _ => none

/-- Read the serialized matrix back. -/
def decodeRows : List (String × Json) → Option Matrix
  | [] => some []
  | (k, Json.obj fields) :: rest =>
    match decodeEntries fields, decodeRows rest with
    | some row, some m => some ((k, row) :: m)
    | _, _ => none
  | _ => none

/-- `_load_matrix` (similarity_service.py lines 41-47): parse the stored
tree; any failure leaves the empty matrix (`except Exception: _matrix = {}`). -/
def _load_matrix (j : Json) : Matrix :=
  match j with
  | Json.obj fields => (decodeRows fields).getD []
  | _ => []

/-- The state of a fresh engine process with no persisted matrix. -/
def initState (G C : Type) : EngineState G C := ⟨[], [], []⟩

/-- A sequence of `register_node` calls, each given as
`(node_id, first_frame_path, last_frame_path)`, with the traces
concatenated; stops at the first raised exception. -/
def registerAll {G C : Type} (env : Env G C) (st : EngineState G C) :
    List (String × String × String) →
    Except (EngineState G C) (EngineState G C × List (String × String))
  | [] => Except.ok (st, [])
  | (n, fp, lp) :: rest =>
    match register_core env st n fp lp with
    | Except.error s => Except.error s
    | Except.ok (s, tr) =>
      match registerAll env s rest with
      | Except.error s' => Except.error s'
      | Except.ok (s', tr') => Except.ok (s', tr ++ tr')

/-- Total number of stored scores in the matrix. -/
def entryCount (m : Matrix) : ℕ := (m.map (fun p => p.2.length)).sum

/-- The state invariant after registering exactly the nodes `ids` (in
order) with every frame load succeeding: the matrix rows are keyed by
`ids`, every row has exactly the columns `ids`, and both grayscale frames
of every registered node are cached. -/
def WF {G C : Type} (st : EngineState G C) (ids : List String) : Prop :=
  ids.Nodup ∧
  st.matrix.map Prod.fst = ids ∧
  (∀ a ∈ ids, (matGet st.matrix a).map Prod.fst = ids) ∧
  (∀ a ∈ ids, (lookupKV st.frameCache (a ++ "_first")).isSome ∧
    (lookupKV st.frameCache (a ++ "_last")).isSome)

/-- Modelled from the claim wording of C4: the result the spec promises
for `compatibleSources`: exactly the stored entries `matrix[otherId][t]`
that reach the threshold, labelled `right`. -/
def compatibleSourcesSpec (m : Matrix) (target_id : String) (threshold : ℚ) :
    List QueryResult :=
  m.filterMap
    (fun p => match lookupKV p.2 target_id with
      | some s => if s ≥ threshold then some ⟨p.1, "right", s⟩ else none
      | none => none)


/-- The result of the successful branch of `register_core` (both grayscale
loads succeeded, returning `gf` and `gl`); spelled out once for reuse. -/
def registerOk {G C : Type} (env : Env G C) (st : EngineState G C)
    (node_id fp lp : String) (gf gl : G) :
    EngineState G C × List (String × String) :=
  let fc' := setKV (setKV st.frameCache (node_id ++ "_first") gf) (node_id ++ "_last") gl
  let cc' := setKV (setKV st.colorCache (node_id ++ "_first")
    (load_color_frame_array env fp)) (node_id ++ "_last") (load_color_frame_array env lp)
  let existing_ids := dedupKeepFirst (st.matrix.map Prod.fst ++ [node_id])
  let m0 := existing_ids.foldl setdefaultRow st.matrix
  let res := existing_ids.foldl
    (fun acc a_id => existing_ids.foldl
      (fun acc b_id => scoreStep env fc' cc' node_id acc a_id b_id) acc)
    (m0, ([] : List (String × String)))
  (⟨fc', cc', res.1⟩, res.2)

/-- A trivial concrete environment over unit frame types: every frame
readable, both measures constantly `1`.  Used to instantiate theorems with
hypotheses at concrete inputs. -/
def unitEnv : Env Unit Unit :=
  { fsGray := fun _ => some (), fsColor := fun _ => some (), zeroColor := ()
    ssim := fun _ _ => 1, hist := fun _ _ => 1 }

/-- A concrete environment in which no frame file is readable. -/
def noneEnv : Env Unit Unit :=
  { fsGray := fun _ => none, fsColor := fun _ => none, zeroColor := ()
    ssim := fun _ _ => 1, hist := fun _ _ => 1 }

/-- A concrete environment whose grayscale loads succeed but whose colour
loads all fail, and whose raw measures are negative. -/
def colorMissEnv : Env Unit Unit :=
  { fsGray := fun _ => some (), fsColor := fun _ => none, zeroColor := ()
    ssim := fun _ _ => -2, hist := fun _ _ => -1 }

/-- A concrete well-formed one-node engine state over unit frame types. -/
def oneNodeState : EngineState Unit Unit :=
  ⟨[("a_first", ()), ("a_last", ())], [("a_first", ()), ("a_last", ())],
   [("a", [("a", 1)])]⟩

/-! ### Association-list (dict) lemmas -/

theorem lookupKV_setKV_self {α : Type} (l : List (String × α)) (k : String) (v : α) :
    lookupKV (setKV l k v) k = some v := by
  induction l with
  | nil => simp [setKV, lookupKV]
  | cons p rest ih =>
    obtain ⟨k', v'⟩ := p
    by_cases h : k' = k
    · simp [setKV, h, lookupKV]
    · simp [setKV, h, lookupKV, ih]

theorem lookupKV_setKV_ne {α : Type} (l : List (String × α)) {k k' : String}
    (h : k' ≠ k) (v : α) : lookupKV (setKV l k v) k' = lookupKV l k' := by
  induction l with
  | nil => simp [setKV, lookupKV, if_neg (Ne.symm h)]
  | cons p rest ih =>
    obtain ⟨k₀, v₀⟩ := p
    by_cases hk : k₀ = k
    · subst hk
      simp [setKV, lookupKV, if_neg (Ne.symm h)]
    · simp [setKV, if_neg hk, lookupKV, ih]

theorem lookupKV_eq_none {α : Type} (l : List (String × α)) (k : String) :
    lookupKV l k = none ↔ k ∉ l.map Prod.fst := by
  induction l with
  | nil => simp [lookupKV]
  | cons p rest ih =>
    obtain ⟨k', v'⟩ := p
    by_cases h : k' = k
    · subst h
      simp [lookupKV]
    · simp only [lookupKV, if_neg h, List.map_cons, List.mem_cons, ih]
      constructor
      · intro hn hor
        rcases hor with he | hm
        · exact h he.symm
        · exact hn hm
      · intro hn hm
        exact hn (Or.inr hm)

theorem lookupKV_isSome {α : Type} (l : List (String × α)) (k : String) :
    (lookupKV l k).isSome ↔ k ∈ l.map Prod.fst := by
  rw [Option.isSome_iff_ne_none, Ne, lookupKV_eq_none, not_not]

theorem setKV_eq_append {α : Type} {l : List (String × α)} {k : String}
    (h : k ∉ l.map Prod.fst) (v : α) : setKV l k v = l ++ [(k, v)] := by
  induction l with
  | nil => simp [setKV]
  | cons p rest ih =>
    obtain ⟨k', v'⟩ := p
    simp only [List.map_cons, List.mem_cons] at h
    push_neg at h
    simp [setKV, if_neg (Ne.symm h.1), ih h.2]

theorem map_fst_setKV_mem {α : Type} {l : List (String × α)} {k : String}
    (h : k ∈ l.map Prod.fst) (v : α) :
    (setKV l k v).map Prod.fst = l.map Prod.fst := by
  induction l with
  | nil => simp at h
  | cons p rest ih =>
    obtain ⟨k', v'⟩ := p
    by_cases hk : k' = k
    · simp [setKV, hk]
    · simp only [List.map_cons, List.mem_cons] at h
      rcases h with h | h
      · exact absurd h.symm hk
      · simp [setKV, if_neg hk, ih h]

theorem lookupKV_append_of_none {α : Type} {l₁ : List (String × α)} {k : String}
    (h : lookupKV l₁ k = none) (l₂ : List (String × α)) :
    lookupKV (l₁ ++ l₂) k = lookupKV l₂ k := by
  induction l₁ with
  | nil => simp
  | cons p rest ih =>
    obtain ⟨k', v'⟩ := p
    by_cases hk : k' = k
    · simp [lookupKV, hk] at h
    · simp only [lookupKV, if_neg hk] at h
      simp [lookupKV, if_neg hk, ih h]

theorem lookupKV_append_of_some {α : Type} {l₁ : List (String × α)} {k : String}
    {v : α} (h : lookupKV l₁ k = some v) (l₂ : List (String × α)) :
    lookupKV (l₁ ++ l₂) k = some v := by
  induction l₁ with
  | nil => simp [lookupKV] at h
  | cons p rest ih =>
    obtain ⟨k', v'⟩ := p
    by_cases hk : k' = k
    · simp only [lookupKV, if_pos hk] at h
      simp [lookupKV, if_pos hk, h]
    · simp only [lookupKV, if_neg hk] at h
      simp [lookupKV, if_neg hk, ih h]

theorem lookupKV_singleton_ne {α : Type} {k k' : String} (h : k' ≠ k) (v : α) :
    lookupKV [(k, v)] k' = none := by
  simp [lookupKV, if_neg (Ne.symm h)]

theorem popKV_cons {α : Type} (k₀ : String) (v₀ : α) (rest : List (String × α))
    (k : String) :
    popKV ((k₀, v₀) :: rest) k =
      if k₀ = k then popKV rest k else (k₀, v₀) :: popKV rest k := by
  by_cases h : k₀ = k <;> simp [popKV, List.filter_cons, h]

theorem lookupKV_popKV_self {α : Type} (l : List (String × α)) (k : String) :
    lookupKV (popKV l k) k = none := by
  induction l with
  | nil => rfl
  | cons p rest ih =>
    obtain ⟨k₀, v₀⟩ := p
    rw [popKV_cons]
    by_cases h : k₀ = k
    · simpa [h] using ih
    · simp [lookupKV, if_neg h, ih]

theorem lookupKV_popKV_ne {α : Type} (l : List (String × α)) {k k' : String}
    (h : k' ≠ k) : lookupKV (popKV l k) k' = lookupKV l k' := by
  induction l with
  | nil => rfl
  | cons p rest ih =>
    obtain ⟨k₀, v₀⟩ := p
    rw [popKV_cons]
    by_cases hk : k₀ = k
    · subst hk
      have hne : ¬ (k₀ = k') := fun he => h (by rw [he])
      simp [lookupKV, if_neg hne, ih]
    · simp [if_neg hk, lookupKV, ih]

theorem popKV_of_none {α : Type} {l : List (String × α)} {k : String}
    (h : lookupKV l k = none) : popKV l k = l := by
  induction l with
  | nil => rfl
  | cons p rest ih =>
    obtain ⟨k₀, v₀⟩ := p
    by_cases hk : k₀ = k
    · simp [lookupKV, hk] at h
    · simp only [lookupKV, if_neg hk] at h
      rw [popKV_cons, if_neg hk, ih h]

theorem popKV_idem {α : Type} (l : List (String × α)) (k : String) :
    popKV (popKV l k) k = popKV l k :=
  popKV_of_none (lookupKV_popKV_self l k)

theorem popKV_comm {α : Type} (l : List (String × α)) (k₁ k₂ : String) :
    popKV (popKV l k₁) k₂ = popKV (popKV l k₂) k₁ := by
  simp only [popKV, List.filter_filter]
  exact List.filter_congr (fun p _ => by rw [Bool.and_comm])

theorem lookupKV_of_mem_nodup {α : Type} {l : List (String × α)} {k : String}
    {v : α} (hnd : (l.map Prod.fst).Nodup) (hm : (k, v) ∈ l) :
    lookupKV l k = some v := by
  induction l with
  | nil => simp at hm
  | cons p rest ih =>
    obtain ⟨k', v'⟩ := p
    simp only [List.map_cons, List.nodup_cons] at hnd
    rcases List.mem_cons.mp hm with h | h
    · cases h
      simp [lookupKV]
    · have hk : k' ≠ k := by
        intro he
        subst he
        exact hnd.1 (List.mem_map.mpr ⟨(k', v), h, rfl⟩)
      simp [lookupKV, if_neg hk, ih hnd.2 h]

/-! ### Cache-key lemmas: `id ++ "_first"` and `id ++ "_last"` never collide
across distinct ids or distinct sides -/

theorem append_right_inj {s a b : String} (h : a ++ s = b ++ s) : a = b := by
  apply String.ext
  have h2 : a.data ++ s.data = b.data ++ s.data := by
    simpa [String.data_append] using congrArg String.data h
  exact List.append_cancel_right h2

theorem key_first_ne_last (a b : String) : a ++ "_first" ≠ b ++ "_last" := by
  intro h
  have h2 : a.data ++ "_first".data = b.data ++ "_last".data := by
    simpa [String.data_append] using congrArg String.data h
  have h3 := congrArg List.reverse h2
  simp [List.reverse_append] at h3

theorem key_last_ne_first (a b : String) : a ++ "_last" ≠ b ++ "_first" :=
  fun h => key_first_ne_last b a h.symm

theorem key_first_ne {a b : String} (h : a ≠ b) : a ++ "_first" ≠ b ++ "_first" :=
  fun he => h (append_right_inj he)

theorem key_last_ne {a b : String} (h : a ≠ b) : a ++ "_last" ≠ b ++ "_last" :=
  fun he => h (append_right_inj he)

/-! ### `list(dict.fromkeys(...))` lemmas -/

theorem foldl_dedupStep_of_nodup :
    ∀ (l acc : List String), l.Nodup → (∀ x ∈ l, x ∉ acc) →
    l.foldl (fun acc x => if x ∈ acc then acc else acc ++ [x]) acc = acc ++ l := by
  intro l
  induction l with
  | nil => intro acc _ _; simp
  | cons y ys ih =>
    intro acc hnd hdis
    have hy : y ∉ acc := hdis y (List.mem_cons_self y ys)
    rw [List.foldl_cons, if_neg hy, ih (acc ++ [y]) (List.nodup_cons.mp hnd).2]
    · simp
    · intro x hx
      simp only [List.mem_append, List.mem_singleton]
      rintro (hxa | hxy)
      · exact hdis x (List.mem_cons_of_mem y hx) hxa
      · exact (List.nodup_cons.mp hnd).1 (hxy ▸ hx)

theorem dedupKeepFirst_of_nodup {l : List String} (h : l.Nodup) :
    dedupKeepFirst l = l := by
  simpa [dedupKeepFirst] using foldl_dedupStep_of_nodup l [] h (by simp)

theorem dedupKeepFirst_append_self {l : List String} {x : String}
    (h : l.Nodup) (hx : x ∈ l) : dedupKeepFirst (l ++ [x]) = l := by
  show (l ++ [x]).foldl (fun acc x => if x ∈ acc then acc else acc ++ [x]) [] = l
  rw [List.foldl_append, foldl_dedupStep_of_nodup l [] h (by simp)]
  simp [hx]

/-! ### `setdefault` pass lemmas -/

theorem setdefaultRow_of_present {m : Matrix} {k : String}
    (h : (lookupKV m k).isSome) : setdefaultRow m k = m := by
  unfold setdefaultRow
  cases hl : lookupKV m k with
  | none => rw [hl] at h; simp at h
  | some r => rfl

theorem setdefaultRow_of_absent {m : Matrix} {k : String}
    (h : lookupKV m k = none) : setdefaultRow m k = m ++ [(k, [])] := by
  unfold setdefaultRow
  rw [h]

theorem foldl_setdefaultRow_of_present {ks : List String} {m : Matrix}
    (h : ∀ k ∈ ks, (lookupKV m k).isSome) : ks.foldl setdefaultRow m = m := by
  induction ks with
  | nil => rfl
  | cons k ks ih =>
    rw [List.foldl_cons, setdefaultRow_of_present (h k (List.mem_cons_self k ks))]
    exact ih (fun k' hk' => h k' (List.mem_cons_of_mem _ hk'))

theorem foldl_setdefaultRow_fresh {ids : List String} {m : Matrix} {n : String}
    (hkeys : ∀ k ∈ ids, (lookupKV m k).isSome) (hn : lookupKV m n = none) :
    (ids ++ [n]).foldl setdefaultRow m = m ++ [(n, [])] := by
  rw [List.foldl_append, foldl_setdefaultRow_of_present hkeys]
  simp [setdefaultRow_of_absent hn]

/-! ### Pairwise-loop lemmas -/

theorem scoreStep_of_present {G C : Type} {env : Env G C}
    {fc : List (String × G)} {cc : List (String × C)} {n : String}
    {acc : Matrix × List (String × String)} {a b : String}
    (h : (lookupKV (matGet acc.1 a) b).isSome) :
    scoreStep env fc cc n acc a b = acc := by
  unfold scoreStep
  rw [if_pos h]

theorem scoreStep_of_old {G C : Type} {env : Env G C}
    {fc : List (String × G)} {cc : List (String × C)} {n : String}
    {acc : Matrix × List (String × String)} {a b : String}
    (h1 : a ≠ n) (h2 : b ≠ n) :
    scoreStep env fc cc n acc a b = acc := by
  unfold scoreStep
  by_cases h : (lookupKV (matGet acc.1 a) b).isSome
  · rw [if_pos h]
  · rw [if_neg h, if_pos ⟨h1, h2⟩]

theorem scoreStep_compute {G C : Type} {env : Env G C}
    {fc : List (String × G)} {cc : List (String × C)} {n : String}
    {acc : Matrix × List (String × String)} {a b : String}
    (h1 : lookupKV (matGet acc.1 a) b = none)
    (h2 : a = n ∨ b = n)
    {ga gb : G} (h3 : lookupKV fc (a ++ "_last") = some ga)
    (h4 : lookupKV fc (b ++ "_first") = some gb) :
    scoreStep env fc cc n acc a b =
      (setKV acc.1 a (setKV (matGet acc.1 a) b
        (round4 (_combined_score env ga gb (lookupKV cc (a ++ "_last"))
          (lookupKV cc (b ++ "_first"))))),
       acc.2 ++ [(a, b)]) := by
  have hno : ¬ (a ≠ n ∧ b ≠ n) := by
    rcases h2 with h | h
    · exact fun hc => hc.1 h
    · exact fun hc => hc.2 h
  unfold scoreStep
  rw [h1, h3, h4]
  rw [if_neg (by simp), if_neg hno]

theorem innerLoop_noop {G C : Type} (env : Env G C)
    (fc : List (String × G)) (cc : List (String × C)) (n : String) :
    ∀ (bs : List String) (acc : Matrix × List (String × String)) (a : String),
    (∀ b ∈ bs, (lookupKV (matGet acc.1 a) b).isSome ∨ (a ≠ n ∧ b ≠ n)) →
    bs.foldl (fun acc b => scoreStep env fc cc n acc a b) acc = acc := by
  intro bs
  induction bs with
  | nil => intro acc a _; rfl
  | cons b bs ih =>
    intro acc a h
    have hstep : scoreStep env fc cc n acc a b = acc := by
      rcases h b (List.mem_cons_self b bs) with hb | hb
      · exact scoreStep_of_present hb
      · exact scoreStep_of_old hb.1 hb.2
    rw [List.foldl_cons, hstep]
    exact ih acc a (fun b' hb' => h b' (List.mem_cons_of_mem _ hb'))

/-- Phase 1 of the pairwise loop during a fresh registration: for every old
row `a`, the inner loop skips all old columns and appends exactly the one
new entry `(a, n)`. -/
theorem outerLoop_old {G C : Type} (env : Env G C)
    (fc : List (String × G)) (cc : List (String × C)) (n : String)
    (ids : List String) (hn : n ∉ ids)
    (hfcl : ∀ a ∈ ids, (lookupKV fc (a ++ "_last")).isSome)
    (hfcf : (lookupKV fc (n ++ "_first")).isSome) :
    ∀ (as : List String) (m : Matrix) (tr : List (String × String)),
    as.Nodup → (∀ a ∈ as, a ∈ ids) →
    (∀ a ∈ as, (lookupKV m a).isSome) →
    (∀ a ∈ as, (matGet m a).map Prod.fst = ids) →
    ∃ m' : Matrix,
      as.foldl (fun acc a_id => (ids ++ [n]).foldl
          (fun acc b_id => scoreStep env fc cc n acc a_id b_id) acc) (m, tr) =
        (m', tr ++ as.map (fun a => (a, n))) ∧
      m'.map Prod.fst = m.map Prod.fst ∧
      (∀ x, x ∉ as → lookupKV m' x = lookupKV m x) ∧
      (∀ a ∈ as, (matGet m' a).map Prod.fst = ids ++ [n]) := by
  intro as
  induction as with
  | nil =>
    intro m tr _ _ _ _
    exact ⟨m, by simp, rfl, fun x _ => rfl, by simp⟩
  | cons a as ih =>
    intro m tr hnd hin hsome hrows
    have ha_ids : a ∈ ids := hin a (List.mem_cons_self a as)
    have ha_notin : a ∉ as := (List.nodup_cons.mp hnd).1
    have hrow_a : (matGet m a).map Prod.fst = ids := hrows a (List.mem_cons_self a as)
    have hsome_a : (lookupKV m a).isSome := hsome a (List.mem_cons_self a as)
    obtain ⟨ga, hga⟩ := Option.isSome_iff_exists.mp (hfcl a ha_ids)
    obtain ⟨gb, hgb⟩ := Option.isSome_iff_exists.mp hfcf
    have hrow_none : lookupKV (matGet m a) n = none := by
      rw [lookupKV_eq_none, hrow_a]
      exact hn
    have hnoop : ids.foldl (fun acc b_id => scoreStep env fc cc n acc a b_id) (m, tr)
        = (m, tr) := by
      refine innerLoop_noop env fc cc n ids (m, tr) a (fun b hb => Or.inl ?_)
      rw [lookupKV_isSome, hrow_a]
      exact hb
    have hstep := @scoreStep_compute G C env fc cc n (m, tr) a n hrow_none
      (Or.inr rfl) ga gb hga hgb
    set v : ℚ := round4 (_combined_score env ga gb (lookupKV cc (a ++ "_last"))
      (lookupKV cc (n ++ "_first"))) with hv
    have hrow_app : setKV (matGet m a) n v = matGet m a ++ [(n, v)] :=
      setKV_eq_append (hrow_a ▸ hn) v
    set m1 : Matrix := setKV m a (setKV (matGet m a) n v) with hm1
    have hinner : (ids ++ [n]).foldl
        (fun acc b_id => scoreStep env fc cc n acc a b_id) (m, tr)
        = (m1, tr ++ [(a, n)]) := by
      rw [List.foldl_append, hnoop]
      simpa using hstep
    have hkeys1 : m1.map Prod.fst = m.map Prod.fst :=
      map_fst_setKV_mem ((lookupKV_isSome m a).mp hsome_a) _
    have hlook1_ne : ∀ x, x ≠ a → lookupKV m1 x = lookupKV m x :=
      fun x hx => lookupKV_setKV_ne m hx _
    have hlook1_a : lookupKV m1 a = some (setKV (matGet m a) n v) :=
      lookupKV_setKV_self m a _
    obtain ⟨m', hfold', hkeys', hlook', hrows'⟩ :=
      ih m1 (tr ++ [(a, n)]) (List.nodup_cons.mp hnd).2
        (fun a' ha' => hin a' (List.mem_cons_of_mem _ ha'))
        (fun a' ha' => by
          rw [hlook1_ne a' (fun he => ha_notin (he ▸ ha'))]
          exact hsome a' (List.mem_cons_of_mem _ ha'))
        (fun a' ha' => by
          rw [matGet, hlook1_ne a' (fun he => ha_notin (he ▸ ha'))]
          exact hrows a' (List.mem_cons_of_mem _ ha'))
    refine ⟨m', ?_, ?_, ?_, ?_⟩
    · rw [List.foldl_cons, hinner, hfold']
      simp
    · rw [hkeys', hkeys1]
    · intro x hx
      have hx1 : x ≠ a := fun he => hx (he ▸ List.mem_cons_self a as)
      have hx2 : x ∉ as := fun hm => hx (List.mem_cons_of_mem _ hm)
      rw [hlook' x hx2, hlook1_ne x hx1]
    · intro a' ha'
      rcases List.mem_cons.mp ha' with he | hm
      · subst he
        rw [matGet, hlook' a' ha_notin, hlook1_a]
        simp only [Option.getD_some]
        rw [hrow_app, List.map_append, hrow_a]
        rfl
      · exact hrows' a' hm

/-- Phase 2 of the pairwise loop during a fresh registration: the inner
loop for the new row `n` computes every column of `bs` once, in order. -/
theorem innerLoop_new {G C : Type} (env : Env G C)
    (fc : List (String × G)) (cc : List (String × C)) (n : String)
    {gl : G} (hl : lookupKV fc (n ++ "_last") = some gl) :
    ∀ (bs : List String) (m : Matrix) (tr : List (String × String)),
    bs.Nodup →
    (∀ b ∈ bs, lookupKV (matGet m n) b = none) →
    (lookupKV m n).isSome →
    (∀ b ∈ bs, (lookupKV fc (b ++ "_first")).isSome) →
    ∃ m' : Matrix,
      bs.foldl (fun acc b_id => scoreStep env fc cc n acc n b_id) (m, tr) =
        (m', tr ++ bs.map (fun b => (n, b))) ∧
      m'.map Prod.fst = m.map Prod.fst ∧
      (∀ x, x ≠ n → lookupKV m' x = lookupKV m x) ∧
      (matGet m' n).map Prod.fst = (matGet m n).map Prod.fst ++ bs := by
  intro bs
  induction bs with
  | nil =>
    intro m tr _ _ _ _
    exact ⟨m, by simp, rfl, fun x _ => rfl, by simp⟩
  | cons b bs ih =>
    intro m tr hnd hnone hm hfirst
    obtain ⟨gb, hgb⟩ := Option.isSome_iff_exists.mp (hfirst b (List.mem_cons_self b bs))
    have hb_none : lookupKV (matGet m n) b = none := hnone b (List.mem_cons_self b bs)
    have hb_notin : b ∉ bs := (List.nodup_cons.mp hnd).1
    have hstep := @scoreStep_compute G C env fc cc n (m, tr) n b hb_none
      (Or.inl rfl) gl gb hl hgb
    set v : ℚ := round4 (_combined_score env gl gb (lookupKV cc (n ++ "_last"))
      (lookupKV cc (b ++ "_first"))) with hv
    have hrow_app : setKV (matGet m n) b v = matGet m n ++ [(b, v)] :=
      setKV_eq_append ((lookupKV_eq_none _ _).mp hb_none) v
    set m1 : Matrix := setKV m n (setKV (matGet m n) b v) with hm1
    have hkeys1 : m1.map Prod.fst = m.map Prod.fst :=
      map_fst_setKV_mem ((lookupKV_isSome m n).mp hm) _
    have hlook1_ne : ∀ x, x ≠ n → lookupKV m1 x = lookupKV m x :=
      fun x hx => lookupKV_setKV_ne m hx _
    have hlook1_n : lookupKV m1 n = some (setKV (matGet m n) b v) :=
      lookupKV_setKV_self m n _
    have hmat1_n : matGet m1 n = matGet m n ++ [(b, v)] := by
      rw [matGet, hlook1_n, Option.getD_some, hrow_app]
    obtain ⟨m', hfold', hkeys', hlook', hrow'⟩ :=
      ih m1 (tr ++ [(n, b)]) (List.nodup_cons.mp hnd).2
        (fun b' hb' => by
          rw [hmat1_n]
          rw [lookupKV_append_of_none (hnone b' (List.mem_cons_of_mem _ hb'))]
          exact lookupKV_singleton_ne (fun he => hb_notin (by rw [he] at hb'; exact hb')) v)
        (by rw [hlook1_n]; rfl)
        (fun b' hb' => hfirst b' (List.mem_cons_of_mem _ hb'))
    refine ⟨m', ?_, ?_, ?_, ?_⟩
    · rw [List.foldl_cons, hstep, hfold']
      simp
    · rw [hkeys', hkeys1]
    · intro x hx
      rw [hlook' x hx, hlook1_ne x hx]
    · rw [hrow', hmat1_n, List.map_append]
      simp

theorem register_core_ok_eq {G C : Type} (env : Env G C) (st : EngineState G C)
    (node_id fp lp : String) {gf gl : G} (hf : env.fsGray fp = some gf)
    (hl : env.fsGray lp = some gl) :
    register_core env st node_id fp lp =
      Except.ok (registerOk env st node_id fp lp gf gl) := by
  unfold register_core load_frame_array registerOk
  rw [hf, hl]

/-- Registering a brand-new node in a well-formed state succeeds, computes
exactly the pairs that involve the new node (old rows first, then the new
row, in order), and yields a well-formed state again. -/
theorem register_core_fresh {G C : Type} (env : Env G C) {st : EngineState G C}
    {ids : List String} {n fp lp : String} {gf gl : G}
    (hwf : WF st ids) (hn : n ∉ ids)
    (hf : env.fsGray fp = some gf) (hl : env.fsGray lp = some gl) :
    ∃ st' : EngineState G C,
      register_core env st n fp lp = Except.ok (st',
        ids.map (fun a => (a, n)) ++ (ids ++ [n]).map (fun b => (n, b))) ∧
      WF st' (ids ++ [n]) := by
  obtain ⟨hnd, hkeys, hrows, hframes⟩ := hwf
  have hnodup2 : (ids ++ [n]).Nodup := by
    rw [List.nodup_append]
    exact ⟨hnd, List.nodup_singleton n,
      fun a ha hb => hn ((List.mem_singleton.mp hb) ▸ ha)⟩
  have hnone : lookupKV st.matrix n = none := by
    rw [lookupKV_eq_none, hkeys]
    exact hn
  set FC := setKV (setKV st.frameCache (n ++ "_first") gf) (n ++ "_last") gl with hFC
  set CC := setKV (setKV st.colorCache (n ++ "_first")
    (load_color_frame_array env fp)) (n ++ "_last") (load_color_frame_array env lp) with hCC
  have hFC_first_n : lookupKV FC (n ++ "_first") = some gf := by
    rw [hFC, lookupKV_setKV_ne _ (key_first_ne_last n n) gl, lookupKV_setKV_self]
  have hFC_last_n : lookupKV FC (n ++ "_last") = some gl := by
    rw [hFC]
    exact lookupKV_setKV_self _ _ _
  have hFC_old : ∀ a ∈ ids,
      lookupKV FC (a ++ "_first") = lookupKV st.frameCache (a ++ "_first") ∧
      lookupKV FC (a ++ "_last") = lookupKV st.frameCache (a ++ "_last") := by
    intro a ha
    have hane : a ≠ n := fun he => hn (he ▸ ha)
    constructor
    · rw [hFC, lookupKV_setKV_ne _ (key_first_ne_last a n) gl,
        lookupKV_setKV_ne _ (key_first_ne hane) gf]
    · rw [hFC, lookupKV_setKV_ne _ (key_last_ne hane) gl,
        lookupKV_setKV_ne _ (key_last_ne_first a n) gf]
  have hFCl : ∀ a ∈ ids, (lookupKV FC (a ++ "_last")).isSome := by
    intro a ha
    rw [(hFC_old a ha).2]
    exact (hframes a ha).2
  have hFCf_all : ∀ b ∈ ids ++ [n], (lookupKV FC (b ++ "_first")).isSome := by
    intro b hb
    rcases List.mem_append.mp hb with hb | hb
    · rw [(hFC_old b hb).1]
      exact (hframes b hb).1
    · rw [List.mem_singleton.mp hb, hFC_first_n]
      rfl
  have hdedup : dedupKeepFirst (st.matrix.map Prod.fst ++ [n]) = ids ++ [n] := by
    rw [hkeys]
    exact dedupKeepFirst_of_nodup hnodup2
  have hm0 : (ids ++ [n]).foldl setdefaultRow st.matrix = st.matrix ++ [(n, [])] :=
    foldl_setdefaultRow_fresh
      (fun k hk => by rw [lookupKV_isSome, hkeys]; exact hk) hnone
  set M0 : Matrix := st.matrix ++ [(n, [])] with hM0
  have hM0keys : M0.map Prod.fst = ids ++ [n] := by
    rw [hM0, List.map_append, hkeys]
    rfl
  have hM0n : lookupKV M0 n = some [] := by
    rw [hM0, lookupKV_append_of_none hnone]
    simp [lookupKV]
  have hM0old : ∀ a ∈ ids, lookupKV M0 a = lookupKV st.matrix a := by
    intro a ha
    obtain ⟨row, hrow⟩ := Option.isSome_iff_exists.mp
      ((lookupKV_isSome st.matrix a).mpr (by rw [hkeys]; exact ha))
    rw [hM0, lookupKV_append_of_some hrow, hrow]
  obtain ⟨m1, hfold1, hkeys1, hlook1, hrows1⟩ :=
    outerLoop_old env FC CC n ids hn hFCl (hFCf_all n (by simp)) ids M0 [] hnd
      (fun a ha => ha)
      (fun a ha => by rw [hM0old a ha, lookupKV_isSome, hkeys]; exact ha)
      (fun a ha => by rw [matGet, hM0old a ha]; exact hrows a ha)
  have hm1n : lookupKV m1 n = some [] := by
    rw [hlook1 n hn, hM0n]
  obtain ⟨m2, hfold2, hkeys2, hlook2, hrow2⟩ :=
    innerLoop_new env FC CC n hFC_last_n (ids ++ [n]) m1
      (ids.map (fun a => (a, n))) hnodup2
      (fun b hb => by rw [matGet, hm1n]; rfl)
      (by rw [hm1n]; rfl)
      hFCf_all
  have hfold : (ids ++ [n]).foldl
      (fun acc a_id => (ids ++ [n]).foldl
        (fun acc b_id => scoreStep env FC CC n acc a_id b_id) acc)
      (M0, ([] : List (String × String)))
      = (m2, ids.map (fun a => (a, n)) ++ (ids ++ [n]).map (fun b => (n, b))) := by
    rw [List.foldl_append, hfold1]
    simp only [List.nil_append, List.foldl_cons, List.foldl_nil]
    exact hfold2
  refine ⟨⟨FC, CC, m2⟩, ?_, ?_⟩
  · rw [register_core_ok_eq env st n fp lp hf hl]
    simp only [registerOk]
    rw [← hFC, ← hCC, hdedup, hm0, hfold]
  · refine ⟨hnodup2, ?_, ?_, ?_⟩
    · show m2.map Prod.fst = ids ++ [n]
      rw [hkeys2, hkeys1, hM0keys]
    · intro a ha
      rcases List.mem_append.mp ha with ha | ha
      · have hane : a ≠ n := fun he => hn (he ▸ ha)
        show (matGet m2 a).map Prod.fst = ids ++ [n]
        rw [matGet, hlook2 a hane]
        exact hrows1 a ha
      · rw [List.mem_singleton.mp ha]
        show (matGet m2 n).map Prod.fst = ids ++ [n]
        rw [hrow2, matGet, hm1n]
        simp
    · intro a ha
      rcases List.mem_append.mp ha with ha | ha
      · constructor
        · show (lookupKV FC (a ++ "_first")).isSome
          rw [(hFC_old a ha).1]
          exact (hframes a ha).1
        · show (lookupKV FC (a ++ "_last")).isSome
          rw [(hFC_old a ha).2]
          exact (hframes a ha).2
      · rw [List.mem_singleton.mp ha]
        constructor
        · show (lookupKV FC (n ++ "_first")).isSome
          rw [hFC_first_n]
          rfl
        · show (lookupKV FC (n ++ "_last")).isSome
          rw [hFC_last_n]
          rfl

/-- When every pair drawn from `as × bs` already has a stored score, the
whole nested loop is a no-op. -/
theorem outerLoop_noop {G C : Type} (env : Env G C)
    (fc : List (String × G)) (cc : List (String × C)) (n : String)
    (bs : List String) :
    ∀ (as : List String) (acc : Matrix × List (String × String)),
    (∀ a ∈ as, ∀ b ∈ bs, (lookupKV (matGet acc.1 a) b).isSome) →
    as.foldl (fun acc a_id => bs.foldl
      (fun acc b_id => scoreStep env fc cc n acc a_id b_id) acc) acc = acc := by
  intro as
  induction as with
  | nil => intro acc _; rfl
  | cons a as ih =>
    intro acc h
    rw [List.foldl_cons, innerLoop_noop env fc cc n bs acc a
      (fun b hb => Or.inl (h a (List.mem_cons_self a as) b hb))]
    exact ih acc (fun a' ha' => h a' (List.mem_cons_of_mem _ ha'))

/-- Re-registering a node that is already in a well-formed matrix (with
both grayscale loads succeeding) refreshes the frame caches but leaves the
matrix exactly as it was, computing nothing (empty trace). -/
theorem register_core_repeat {G C : Type} (env : Env G C) {st : EngineState G C}
    {ids : List String} {n fp lp : String} {gf gl : G}
    (hwf : WF st ids) (hmem : n ∈ ids)
    (hf : env.fsGray fp = some gf) (hl : env.fsGray lp = some gl) :
    register_core env st n fp lp = Except.ok
      (⟨setKV (setKV st.frameCache (n ++ "_first") gf) (n ++ "_last") gl,
        setKV (setKV st.colorCache (n ++ "_first") (load_color_frame_array env fp))
          (n ++ "_last") (load_color_frame_array env lp),
        st.matrix⟩, []) := by
  obtain ⟨hnd, hkeys, hrows, _⟩ := hwf
  rw [register_core_ok_eq env st n fp lp hf hl]
  simp only [registerOk]
  rw [hkeys, dedupKeepFirst_append_self hnd hmem]
  rw [foldl_setdefaultRow_of_present
    (fun k hk => by rw [lookupKV_isSome, hkeys]; exact hk)]
  rw [outerLoop_noop env _ _ n ids ids (st.matrix, [])
    (fun a ha b hb => by rw [lookupKV_isSome]; rw [hrows a ha]; exact hb)]

/-- Sum of inner lengths when every row has the same length. -/
theorem sum_lengths_const {l : Matrix} {c : ℕ}
    (h : ∀ p ∈ l, p.2.length = c) :
    (l.map (fun p => p.2.length)).sum = l.length * c := by
  induction l with
  | nil => simp
  | cons p rest ih =>
    simp only [List.map_cons, List.sum_cons, List.length_cons]
    rw [h p (List.mem_cons_self p rest), ih (fun q hq => h q (List.mem_cons_of_mem _ hq))]
    ring

/-- A well-formed matrix over `ids` holds exactly `ids.length ^ 2` scores. -/
theorem entryCount_of_WF {G C : Type} {st : EngineState G C} {ids : List String}
    (h : WF st ids) : entryCount st.matrix = ids.length * ids.length := by
  obtain ⟨hnd, hkeys, hrows, _⟩ := h
  have hlen : ∀ p ∈ st.matrix, p.2.length = ids.length := by
    intro p hp
    have h1 : p.1 ∈ ids := by
      rw [← hkeys]
      exact List.mem_map.mpr ⟨p, hp, rfl⟩
    have h2 : lookupKV st.matrix p.1 = some p.2 :=
      lookupKV_of_mem_nodup (by rw [hkeys]; exact hnd) hp
    have h3 := hrows p.1 h1
    rw [matGet, h2] at h3
    have h4 := congrArg List.length h3
    simpa using h4
  unfold entryCount
  rw [sum_lengths_const hlen]
  have h5 := congrArg List.length hkeys
  simp only [List.length_map] at h5
  rw [h5]

/-- Membership of a score in a well-formed matrix is exactly membership of
both coordinates among the registered ids. -/
theorem WF_entry_iff {G C : Type} {st : EngineState G C} {ids : List String}
    (h : WF st ids) (a b : String) :
    (lookupKV (matGet st.matrix a) b).isSome ↔ (a ∈ ids ∧ b ∈ ids) := by
  obtain ⟨hnd, hkeys, hrows, _⟩ := h
  by_cases ha : a ∈ ids
  · rw [lookupKV_isSome, hrows a ha]
    exact ⟨fun hb => ⟨ha, hb⟩, fun hb => hb.2⟩
  · have hnone : lookupKV st.matrix a = none := by
      rw [lookupKV_eq_none, hkeys]
      exact ha
    rw [matGet, hnone]
    simp [lookupKV, ha]

/-- Running a sequence of registrations of pairwise-distinct fresh nodes
(each grayscale load succeeding) from a well-formed state succeeds, ends
well-formed over all ids, and the concatenated trace of computed pairs has
no duplicates and exactly the expected length; every computed pair lies
within the registered ids and involves a newly registered one. -/
theorem registerAll_ok {G C : Type} (env : Env G C) :
    ∀ (steps : List (String × String × String)) (st : EngineState G C)
      (ids : List String),
    WF st ids →
    (ids ++ steps.map (fun s => s.1)).Nodup →
    (∀ s ∈ steps, (env.fsGray s.2.1).isSome ∧ (env.fsGray s.2.2).isSome) →
    ∃ (st' : EngineState G C) (tr : List (String × String)),
      registerAll env st steps = Except.ok (st', tr) ∧
      WF st' (ids ++ steps.map (fun s => s.1)) ∧
      tr.Nodup ∧
      tr.length + ids.length * ids.length =
        (ids.length + steps.length) * (ids.length + steps.length) ∧
      (∀ p ∈ tr, p.1 ∈ ids ++ steps.map (fun s => s.1) ∧
        p.2 ∈ ids ++ steps.map (fun s => s.1) ∧
        (p.1 ∈ steps.map (fun s => s.1) ∨ p.2 ∈ steps.map (fun s => s.1))) := by
  intro steps
  induction steps with
  | nil =>
    intro st ids hwf hnd hload
    exact ⟨st, [], rfl, by simpa using hwf, List.nodup_nil, by simp, by simp⟩
  | cons s rest ih =>
    obtain ⟨n, fp, lp⟩ := s
    intro st ids hwf hnd hload
    have hndflat : (ids ++ n :: rest.map (fun s => s.1)).Nodup := hnd
    have hdisj : ids.Disjoint (n :: rest.map (fun s => s.1)) :=
      (List.nodup_append.mp hndflat).2.2
    have hn : n ∉ ids := fun hmem =>
      hdisj hmem (List.mem_cons_self n (rest.map (fun s => s.1)))
    obtain ⟨gf, hgf⟩ := Option.isSome_iff_exists.mp
      (hload (n, fp, lp) (List.mem_cons_self _ _)).1
    obtain ⟨gl, hgl⟩ := Option.isSome_iff_exists.mp
      (hload (n, fp, lp) (List.mem_cons_self _ _)).2
    obtain ⟨st1, hreg, hwf1⟩ := register_core_fresh env hwf hn hgf hgl
    have hnd' : ((ids ++ [n]) ++ rest.map (fun s => s.1)).Nodup := by
      rw [List.append_assoc]
      exact hndflat
    obtain ⟨st2, tr2, hrest, hwf2, hnod2, hlen2, hmem2⟩ :=
      ih st1 (ids ++ [n]) hwf1 hnd'
        (fun s hs => hload s (List.mem_cons_of_mem _ hs))
    have hnodup2 : (ids ++ [n]).Nodup := (List.nodup_append.mp hnd').1
    have hdisj2 : (ids ++ [n]).Disjoint (rest.map (fun s => s.1)) :=
      (List.nodup_append.mp hnd').2.2
    set tr1 : List (String × String) :=
      ids.map (fun a => (a, n)) ++ (ids ++ [n]).map (fun b => (n, b)) with htr1
    have htr1mem : ∀ p ∈ tr1, p.1 ∈ ids ++ [n] ∧ p.2 ∈ ids ++ [n] ∧
        (p.1 = n ∨ p.2 = n) := by
      intro p hp
      rcases List.mem_append.mp hp with hp | hp
      · obtain ⟨a, ha, he⟩ := List.mem_map.mp hp
        subst he
        exact ⟨List.mem_append.mpr (Or.inl ha), List.mem_append.mpr (Or.inr (by simp)),
          Or.inr rfl⟩
      · obtain ⟨b, hb, he⟩ := List.mem_map.mp hp
        subst he
        exact ⟨List.mem_append.mpr (Or.inr (by simp)), hb, Or.inl rfl⟩
    have htr1nodup : tr1.Nodup := by
      rw [htr1]
      refine List.Nodup.append ?_ ?_ ?_
      · exact (List.nodup_append.mp hnodup2).1.map
          (fun x y h => congrArg Prod.fst h)
      · exact hnodup2.map (fun x y h => congrArg Prod.snd h)
      · intro p hp1 hp2
        obtain ⟨a, ha, hea⟩ := List.mem_map.mp hp1
        obtain ⟨b, hb, heb⟩ := List.mem_map.mp hp2
        apply hn
        have : a = n := by
          have := hea.trans heb.symm
          exact (Prod.mk.injEq a n n b ▸ this).1
        exact this ▸ ha
    have hdisj12 : tr1.Disjoint tr2 := by
      intro p hp1 hp2
      obtain ⟨h1, h2, _⟩ := htr1mem p hp1
      obtain ⟨_, _, h3⟩ := hmem2 p hp2
      rcases h3 with h3 | h3
      · exact hdisj2 h1 h3
      · exact hdisj2 h2 h3
    refine ⟨st2, tr1 ++ tr2, ?_, ?_, ?_, ?_, ?_⟩
    · show registerAll env st ((n, fp, lp) :: rest) = Except.ok (st2, tr1 ++ tr2)
      unfold registerAll
      rw [hreg]
      show (match registerAll env st1 rest with
        | Except.error s' => Except.error s'
        | Except.ok (s', tr') => Except.ok (s', tr1 ++ tr')) = Except.ok (st2, tr1 ++ tr2)
      rw [hrest]
    · simpa [List.append_assoc] using hwf2
    · exact List.Nodup.append htr1nodup hnod2 hdisj12
    · have e1 : tr1.length = ids.length + (ids.length + 1) := by
        rw [htr1]
        simp
      have e2 : (ids ++ [n]).length = ids.length + 1 := by simp
      rw [e2] at hlen2
      simp only [List.length_append, List.length_cons, List.length_map, e1]
      calc ids.length + (ids.length + 1) + tr2.length + ids.length * ids.length
          = tr2.length + (ids.length + 1) * (ids.length + 1) := by ring
        _ = (ids.length + 1 + rest.length) * (ids.length + 1 + rest.length) := hlen2
        _ = (ids.length + (rest.length + 1)) * (ids.length + (rest.length + 1)) := by
            ring
    · intro p hp
      have hsub : ∀ x, x ∈ ids ++ [n] → x ∈ ids ++ n :: rest.map (fun s => s.1) := by
        intro x hx
        rcases List.mem_append.mp hx with hx | hx
        · exact List.mem_append.mpr (Or.inl hx)
        · exact List.mem_append.mpr (Or.inr (by
            rw [List.mem_singleton.mp hx]
            exact List.mem_cons_self _ _))
      rcases List.mem_append.mp hp with hp | hp
      · obtain ⟨h1, h2, h3⟩ := htr1mem p hp
        refine ⟨hsub p.1 h1, hsub p.2 h2, ?_⟩
        rcases h3 with h3 | h3
        · exact Or.inl (by rw [h3]; exact List.mem_cons_self _ _)
        · exact Or.inr (by rw [h3]; exact List.mem_cons_self _ _)
      · obtain ⟨h1, h2, h3⟩ := hmem2 p hp
        have hsub2 : ∀ x, x ∈ (ids ++ [n]) ++ rest.map (fun s => s.1) →
            x ∈ ids ++ n :: rest.map (fun s => s.1) := by
          intro x hx
          rw [List.append_assoc] at hx
          exact hx
        refine ⟨hsub2 p.1 h1, hsub2 p.2 h2, ?_⟩
        rcases h3 with h3 | h3
        · exact Or.inl (List.mem_cons_of_mem _ h3)
        · exact Or.inr (List.mem_cons_of_mem _ h3)

/-! ### Helpers for the score-bounds, removal, persistence and colour claims -/

theorem combined_score_eq_some {G C : Type} (env : Env G C) (g1 g2 : G)
    (ac bc : C) :
    _combined_score env g1 g2 (some ac) (some bc) =
      0.6 * max 0 (env.ssim g1 g2) + 0.4 * max 0 (env.hist ac bc) := rfl

theorem combined_score_eq_absent {G C : Type} (env : Env G C) (g1 g2 : G)
    (c1 c2 : Option C) (h : c1 = none ∨ c2 = none) :
    _combined_score env g1 g2 c1 c2 = 0.6 * max 0 (env.ssim g1 g2) + 0.4 * 0 := by
  rcases h with h | h
  · subst h
    cases c2 <;> rfl
  · subst h
    cases c1 <;> rfl

theorem lookupKV_mem {α : Type} {l : List (String × α)} {k : String} {v : α}
    (h : lookupKV l k = some v) : (k, v) ∈ l := by
  induction l with
  | nil => simp [lookupKV] at h
  | cons p rest ih =>
    obtain ⟨k', v'⟩ := p
    by_cases hk : k' = k
    · subst hk
      simp only [lookupKV, eq_self_iff_true, if_true, Option.some.injEq] at h
      subst h
      exact List.mem_cons_self _ _
    · simp only [lookupKV, if_neg hk] at h
      exact List.mem_cons_of_mem _ (ih h)

theorem lookupKV_map_popKV (l : Matrix) (X k : String) :
    lookupKV (l.map (fun p => (p.1, popKV p.2 X))) k =
      (lookupKV l k).map (fun r => popKV r X) := by
  induction l with
  | nil => rfl
  | cons p rest ih =>
    obtain ⟨k', r⟩ := p
    by_cases hk : k' = k
    · simp [lookupKV, hk]
    · simp [lookupKV, hk, ih]

theorem remove_node_matrix {G C : Type} (st : EngineState G C) (X : String) :
    (remove_node st X).matrix =
      (popKV st.matrix X).map (fun p => (p.1, popKV p.2 X)) := rfl

theorem popKV_pair_idem {α : Type} (l : List (String × α)) (k1 k2 : String) :
    popKV (popKV (popKV (popKV l k1) k2) k1) k2 = popKV (popKV l k1) k2 := by
  simp only [popKV, List.filter_filter]
  apply List.filter_congr
  intro p _
  by_cases h1 : p.1 = k1 <;> by_cases h2 : p.1 = k2 <;> simp [h1, h2]

theorem popKV_map_fst (l : Matrix) (X k : String) :
    popKV (l.map (fun p => (p.1, popKV p.2 X))) k =
      (popKV l k).map (fun p => (p.1, popKV p.2 X)) := by
  induction l with
  | nil => rfl
  | cons p rest ih =>
    obtain ⟨k', r⟩ := p
    by_cases hk : k' = k
    · simp only [List.map_cons, popKV_cons, if_pos hk, ih]
    · simp only [List.map_cons, popKV_cons, if_neg hk, ih]

theorem decodeEntries_encode (row : Row) :
    decodeEntries (row.map (fun q => (q.1, Json.num q.2))) = some row := by
  induction row with
  | nil => rfl
  | cons q rest ih =>
    obtain ⟨k, v⟩ := q
    simp [decodeEntries, ih]

theorem decodeRows_encode (m : Matrix) :
    decodeRows (m.map (fun p =>
      (p.1, Json.obj (p.2.map (fun q => (q.1, Json.num q.2)))))) = some m := by
  induction m with
  | nil => rfl
  | cons p rest ih =>
    obtain ⟨k, row⟩ := p
    simp [decodeRows, decodeEntries_encode, ih]

theorem load_save (m : Matrix) : _load_matrix (_save_matrix m) = m := by
  show (decodeRows (m.map (fun p =>
    (p.1, Json.obj (p.2.map (fun q => (q.1, Json.num q.2))))))).getD [] = m
  rw [decodeRows_encode]
  rfl

/-- Registering a single node into the fresh empty state, fully evaluated:
frame caches hold the two loaded arrays, and the matrix is the single
self-comparison of the new node (trailing vs leading frame, with the two
cached colour arrays). -/
theorem register_core_single {G C : Type} (env : Env G C) (n fp lp : String)
    {gf gl : G} (hf : env.fsGray fp = some gf) (hl : env.fsGray lp = some gl) :
    register_core env (initState G C) n fp lp = Except.ok
      (⟨[(n ++ "_first", gf), (n ++ "_last", gl)],
        [(n ++ "_first", load_color_frame_array env fp),
         (n ++ "_last", load_color_frame_array env lp)],
        [(n, [(n, round4 (_combined_score env gl gf
          (some (load_color_frame_array env lp))
          (some (load_color_frame_array env fp))))])]⟩,
       [(n, n)]) := by
  rw [register_core_ok_eq env (initState G C) n fp lp hf hl]
  congr 1
  simp [registerOk, initState, setKV, key_first_ne_last n n, dedupKeepFirst,
    setdefaultRow, lookupKV, scoreStep, matGet]

theorem register_node_single {G C : Type} (env : Env G C) (n fp lp : String)
    {gf gl : G} (hf : env.fsGray fp = some gf) (hl : env.fsGray lp = some gl) :
    register_node env (initState G C) n fp lp = Except.ok
      ⟨[(n ++ "_first", gf), (n ++ "_last", gl)],
        [(n ++ "_first", load_color_frame_array env fp),
         (n ++ "_last", load_color_frame_array env lp)],
        [(n, [(n, round4 (_combined_score env gl gf
          (some (load_color_frame_array env lp))
          (some (load_color_frame_array env fp))))])]⟩ := by
  unfold register_node
  rw [register_core_single env n fp lp hf hl]

/-! ### The claims -/

/-- Claim C1: for every sequence of N `register_node` calls with N distinct
node identifiers and no removals, where every frame load succeeds, the
resulting matrix contains exactly N² entries — one per ordered pair of
registered identifiers, self-pairs included — and each entry is computed
exactly once over the lifetime of the system (the trace of
`_combined_score` calls has N² pairwise-distinct entries). -/
theorem C1_pair_count {G C : Type} (env : Env G C)
    (steps : List (String × String × String))
    (hnd : (steps.map (fun s => s.1)).Nodup)
    (hload : ∀ s ∈ steps, (env.fsGray s.2.1).isSome ∧ (env.fsGray s.2.2).isSome) :
    ∃ (st' : EngineState G C) (tr : List (String × String)),
      registerAll env (initState G C) steps = Except.ok (st', tr) ∧
      entryCount st'.matrix = steps.length * steps.length ∧
      (∀ a b, (lookupKV (matGet st'.matrix a) b).isSome ↔
        (a ∈ steps.map (fun s => s.1) ∧ b ∈ steps.map (fun s => s.1))) ∧
      tr.length = steps.length * steps.length ∧
      tr.Nodup := by
  have hwf0 : WF (initState G C) [] := by
    refine ⟨List.nodup_nil, rfl, ?_, ?_⟩ <;> intro a ha <;> simp at ha
  obtain ⟨st', tr, hrun, hwf, hnodtr, hlen, _⟩ :=
    registerAll_ok env steps (initState G C) [] hwf0 (by simpa using hnd) hload
  refine ⟨st', tr, hrun, ?_, ?_, ?_, hnodtr⟩
  · have h := entryCount_of_WF hwf
    simpa using h
  · intro a b
    have h := WF_entry_iff hwf a b
    simpa using h
  · simpa using hlen

theorem C1_pair_count_witness :
    ∃ (st' : EngineState Unit Unit) (tr : List (String × String)),
      registerAll unitEnv (initState Unit Unit)
        [("a", "fa", "la"), ("b", "fb", "lb")] = Except.ok (st', tr) ∧
      entryCount st'.matrix = 2 * 2 ∧
      (∀ x y, (lookupKV (matGet st'.matrix x) y).isSome ↔
        (x ∈ [("a", "fa", "la"), ("b", "fb", "lb")].map (fun s => s.1) ∧
         y ∈ [("a", "fa", "la"), ("b", "fb", "lb")].map (fun s => s.1))) ∧
      tr.length = 2 * 2 ∧
      tr.Nodup :=
  C1_pair_count unitEnv [("a", "fa", "la"), ("b", "fb", "lb")]
    (by decide) (by decide)

/-- Claim C2: calling `register_node` a second time for a node identifier
already present in a well-formed matrix does not alter any stored score —
the matrix after the repeated registration (successful or not) equals the
matrix before it, and on success nothing at all is recomputed (empty
trace). -/
theorem C2_idempotent_registration {G C : Type} (env : Env G C)
    {st : EngineState G C} {ids : List String} {n : String}
    (hwf : WF st ids) (hmem : n ∈ ids) (fp lp : String) :
    (stateOf (register_node env st n fp lp)).matrix = st.matrix ∧
    (∀ st' tr, register_core env st n fp lp = Except.ok (st', tr) → tr = []) := by
  cases hfp : env.fsGray fp with
  | none =>
    have herr : register_core env st n fp lp = Except.error st := by
      unfold register_core load_frame_array
      rw [hfp]
    constructor
    · unfold register_node
      rw [herr]
      rfl
    · intro st' tr h
      rw [herr] at h
      exact Except.noConfusion h
  | some gf =>
    cases hlp : env.fsGray lp with
    | none =>
      have herr : register_core env st n fp lp = Except.error
          { st with frameCache := setKV st.frameCache (n ++ "_first") gf } := by
        unfold register_core load_frame_array
        rw [hfp, hlp]
      constructor
      · unfold register_node
        rw [herr]
        rfl
      · intro st' tr h
        rw [herr] at h
        exact Except.noConfusion h
    | some gl =>
      have hok := register_core_repeat env hwf hmem hfp hlp
      constructor
      · unfold register_node
        rw [hok]
        rfl
      · intro st' tr h
        have h2 := Except.ok.inj (hok.symm.trans h)
        exact (congrArg Prod.snd h2).symm

theorem C2_idempotent_registration_witness :
    (stateOf (register_node unitEnv oneNodeState "a" "f2" "l2")).matrix =
      oneNodeState.matrix :=
  (C2_idempotent_registration unitEnv
    (show WF oneNodeState ["a"] from ⟨by decide, by decide, by decide, by decide⟩)
    (show "a" ∈ ["a"] by decide) "f2" "l2").1

/-- Claim C3: if a grayscale frame load fails during `register_node`, the
failure propagates to the caller (an `Except.error` result) and the matrix
in the propagated state equals the matrix before the call — no entries
involving the new node are committed. -/
theorem C3_failed_load_matrix_unchanged {G C : Type} (env : Env G C)
    (st : EngineState G C) (n fp lp : String) (st' : EngineState G C)
    (h : register_node env st n fp lp = Except.error st') :
    st'.matrix = st.matrix := by
  unfold register_node at h
  cases hfp : env.fsGray fp with
  | none =>
    have herr : register_core env st n fp lp = Except.error st := by
      unfold register_core load_frame_array
      rw [hfp]
    rw [herr] at h
    have h2 : Except.error (ε := EngineState G C) st = Except.error st' := h
    rw [← Except.error.inj h2]
  | some gf =>
    cases hlp : env.fsGray lp with
    | none =>
      have herr : register_core env st n fp lp = Except.error
          { st with frameCache := setKV st.frameCache (n ++ "_first") gf } := by
        unfold register_core load_frame_array
        rw [hfp, hlp]
      rw [herr] at h
      have h2 : Except.error (ε := EngineState G C)
          { st with frameCache := setKV st.frameCache (n ++ "_first") gf } =
          Except.error st' := h
      rw [← Except.error.inj h2]
    | some gl =>
      rw [register_core_ok_eq env st n fp lp hfp hlp] at h
      exact Except.noConfusion h

theorem C3_failed_load_matrix_unchanged_witness :
    (initState Unit Unit).matrix = (initState Unit Unit).matrix :=
  C3_failed_load_matrix_unchanged noneEnv (initState Unit Unit) "a" "f" "l"
    (initState Unit Unit) rfl

/-- Claim C4 as stated is false at threshold 0: `get_compatible_sources`
uses `row.get(target_id, 0)`, so a row with no stored entry for the target
passes a zero threshold and appears in the result with score 0.  Concretely,
with matrix `{a: {a: 1}}` and target `b`, the query at threshold 0 returns
`(a, right, 0)` although no entry `matrix[a][b]` exists. -/
theorem C4_counterexample :
    (⟨"a", "right", 0⟩ : QueryResult) ∈
      get_compatible_sources [("a", [("a", (1 : ℚ))])] "b" 0 ∧
    lookupKV (matGet [("a", [("a", (1 : ℚ))])] "a") "b" = none := by
  constructor
  · decide
  · decide

/-- Claim C4 amended: for every strictly positive threshold (in particular
for every threshold in (0,1]), `get_compatible_sources t T` returns exactly
the pairs with a stored entry `matrix[otherId][t] ≥ T`, labelled `right`;
no identifier without a stored entry for `t` appears.  (At threshold 0 the
code also returns every row lacking an entry, with score 0.) -/
theorem C4_sources_amended (m : Matrix) (t : String) (T : ℚ) (hT : 0 < T) :
    get_compatible_sources m t T = compatibleSourcesSpec m t T := by
  unfold get_compatible_sources compatibleSourcesSpec
  induction m with
  | nil => rfl
  | cons p rest ih =>
    have hfg : (if (lookupKV p.2 t).getD 0 ≥ T then
          some (⟨p.1, "right", (lookupKV p.2 t).getD 0⟩ : QueryResult) else none) =
        (match lookupKV p.2 t with
          | some s => if s ≥ T then some (⟨p.1, "right", s⟩ : QueryResult) else none
          | none => none) := by
      cases hl : lookupKV p.2 t with
      | none =>
        simp only [hl, Option.getD_none]
        rw [if_neg (not_le.mpr hT)]
      | some s => simp only [hl, Option.getD_some]
    rw [List.filterMap_cons, List.filterMap_cons, hfg, ih]

theorem C4_sources_amended_witness :
    get_compatible_sources [("a", [("a", (1 : ℚ))])] "a" 1 =
      compatibleSourcesSpec [("a", [("a", (1 : ℚ))])] "a" 1 :=
  C4_sources_amended [("a", [("a", (1 : ℚ))])] "a" 1 (by norm_num)

/-- Claim C5 as stated is false at threshold 0: after removing `x` from the
matrix `{x: {x: 1}, b: {x: 1, b: 1}}` (which contained `x`),
`get_compatible_sources x 0` returns `(b, right, 0)` — every remaining row
passes a zero threshold through the `row.get(x, 0)` default — rather than
the empty list the claim requires for every threshold in [0,1]. -/
theorem C5_counterexample :
    (lookupKV ([("x", [("x", (1 : ℚ))]),
      ("b", [("x", (1 : ℚ)), ("b", (1 : ℚ))])] : Matrix) "x").isSome ∧
    get_compatible_sources (remove_node
      (⟨[], [], [("x", [("x", (1 : ℚ))]),
        ("b", [("x", (1 : ℚ)), ("b", (1 : ℚ))])]⟩ : EngineState Unit Unit)
      "x").matrix "x" 0 = [⟨"b", "right", 0⟩] := by
  constructor
  · decide
  · decide

/-- Claim C5 amended: after `remove_node X` on a matrix that contained `X`,
no row keyed `X` exists, no remaining row contains a column keyed `X`,
`get_compatible_targets X` returns the empty list at every threshold, and
`get_compatible_sources X T` returns the empty list for every threshold
`T` in (0,1] — neither raises.  (At threshold exactly 0 the sources query
instead returns every remaining row with score 0.) -/
theorem C5_removal_amended {G C : Type} (st : EngineState G C) (X : String)
    (hX : (lookupKV st.matrix X).isSome) (T : ℚ) (hT0 : 0 < T) (hT1 : T ≤ 1) :
    lookupKV (remove_node st X).matrix X = none ∧
    (∀ p ∈ (remove_node st X).matrix, lookupKV p.2 X = none) ∧
    (∀ T' : ℚ, get_compatible_targets (remove_node st X).matrix X T' = []) ∧
    get_compatible_sources (remove_node st X).matrix X T = [] := by
  have hrow : lookupKV (remove_node st X).matrix X = none := by
    rw [remove_node_matrix, lookupKV_map_popKV, lookupKV_popKV_self]
    rfl
  refine ⟨hrow, ?_, ?_, ?_⟩
  · intro p hp
    rw [remove_node_matrix] at hp
    obtain ⟨q, _, he⟩ := List.mem_map.mp hp
    rw [← he]
    exact lookupKV_popKV_self q.2 X
  · intro T'
    unfold get_compatible_targets
    rw [matGet, hrow]
    rfl
  · unfold get_compatible_sources
    rw [List.filterMap_eq_nil_iff]
    intro p hp
    rw [remove_node_matrix] at hp
    obtain ⟨q, _, he⟩ := List.mem_map.mp hp
    have hqn : lookupKV p.2 X = none := by
      rw [← he]
      exact lookupKV_popKV_self q.2 X
    rw [hqn]
    simp only [Option.getD_none]
    rw [if_neg (not_le.mpr hT0)]

theorem C5_removal_amended_witness :
    lookupKV (remove_node (⟨[], [], [("x", [("x", (1 : ℚ))]),
        ("b", [("x", (1 : ℚ)), ("b", (1 : ℚ))])]⟩ : EngineState Unit Unit)
      "x").matrix "x" = none ∧
    (∀ p ∈ (remove_node (⟨[], [], [("x", [("x", (1 : ℚ))]),
        ("b", [("x", (1 : ℚ)), ("b", (1 : ℚ))])]⟩ : EngineState Unit Unit)
      "x").matrix, lookupKV p.2 "x" = none) ∧
    (∀ T' : ℚ, get_compatible_targets (remove_node
      (⟨[], [], [("x", [("x", (1 : ℚ))]),
        ("b", [("x", (1 : ℚ)), ("b", (1 : ℚ))])]⟩ : EngineState Unit Unit)
      "x").matrix "x" T' = []) ∧
    get_compatible_sources (remove_node
      (⟨[], [], [("x", [("x", (1 : ℚ))]),
        ("b", [("x", (1 : ℚ)), ("b", (1 : ℚ))])]⟩ : EngineState Unit Unit)
      "x").matrix "x" 1 = [] :=
  C5_removal_amended _ "x" (by decide) 1 (by norm_num) (by norm_num)

/-- Claim C6: `get_compatible_targets A T` returns exactly the stored row
entries of `A` whose score reaches `T` (labelled `left`; empty when `A`
has no row), and raising the threshold can only shrink or preserve the
result. -/
theorem C6_targets_exact_and_antitone (m : Matrix) (A : String) (T1 T2 : ℚ) :
    (((matGet m A).map Prod.fst).Nodup →
      ∀ r : QueryResult, r ∈ get_compatible_targets m A T1 ↔
        (lookupKV (matGet m A) r.node_id = some r.score ∧ r.score ≥ T1 ∧
          r.side = "left")) ∧
    (lookupKV m A = none → get_compatible_targets m A T1 = []) ∧
    (T1 ≤ T2 → ∀ r ∈ get_compatible_targets m A T2,
      r ∈ get_compatible_targets m A T1) := by
  refine ⟨?_, ?_, ?_⟩
  · intro hnd r
    unfold get_compatible_targets
    rw [List.mem_filterMap]
    constructor
    · rintro ⟨p, hp, hf⟩
      by_cases hge : p.2 ≥ T1
      · rw [if_pos hge] at hf
        obtain he := Option.some.inj hf
        rw [← he]
        exact ⟨lookupKV_of_mem_nodup hnd hp, hge, rfl⟩
      · rw [if_neg hge] at hf
        exact Option.noConfusion hf
    · rintro ⟨hlook, hge, hside⟩
      obtain ⟨n, s, c⟩ := r
      cases hside
      exact ⟨(n, c), lookupKV_mem hlook, by rw [if_pos hge]⟩
  · intro hnone
    unfold get_compatible_targets
    rw [matGet, hnone]
    rfl
  · intro h12 r hr
    unfold get_compatible_targets at hr ⊢
    rw [List.mem_filterMap] at hr ⊢
    obtain ⟨p, hp, hf⟩ := hr
    by_cases hge : p.2 ≥ T2
    · rw [if_pos hge] at hf
      exact ⟨p, hp, by rw [if_pos (le_trans h12 hge)]; exact hf⟩
    · rw [if_neg hge] at hf
      exact Option.noConfusion hf

theorem C6_witness :
    (⟨"b", "left", (1 : ℚ)⟩ : QueryResult) ∈
      get_compatible_targets [("a", [("b", (1 : ℚ))])] "a" 0 :=
  ((C6_targets_exact_and_antitone [("a", [("b", (1 : ℚ))])] "a" 0 0).1
    (by decide) ⟨"b", "left", 1⟩).mpr ⟨by decide, by decide, rfl⟩

/-- Claim C7: for every pair of feature inputs, the combined score
`0.6 * max(0, structural) + 0.4 * max(0, colorCorrelation)` lies in [0,1]
inclusive — even when the raw structural measure or the raw colour
correlation is negative, provided each raw component is bounded above by
1 — and the colour term contributes 0 when either colour array is absent. -/
theorem C7_score_bounds {G C : Type} (env : Env G C) (g1 g2 : G)
    (c1 c2 : Option C)
    (hs : env.ssim g1 g2 ≤ 1) (hh : ∀ a b, env.hist a b ≤ 1) :
    (0 ≤ _combined_score env g1 g2 c1 c2 ∧ _combined_score env g1 g2 c1 c2 ≤ 1) ∧
    ((c1 = none ∨ c2 = none) →
      _combined_score env g1 g2 c1 c2 = 0.6 * max 0 (env.ssim g1 g2)) := by
  have hs0 : 0 ≤ max 0 (env.ssim g1 g2) := le_max_left 0 _
  have hs1 : max 0 (env.ssim g1 g2) ≤ 1 := max_le (by norm_num) hs
  cases c1 with
  | none =>
    rw [combined_score_eq_absent env g1 g2 none c2 (Or.inl rfl)]
    exact ⟨⟨by nlinarith, by nlinarith⟩, fun _ => by ring⟩
  | some a1 =>
    cases c2 with
    | none =>
      rw [combined_score_eq_absent env g1 g2 (some a1) none (Or.inr rfl)]
      exact ⟨⟨by nlinarith, by nlinarith⟩, fun _ => by ring⟩
    | some b2 =>
      rw [combined_score_eq_some]
      have hh0 : 0 ≤ max 0 (env.hist a1 b2) := le_max_left 0 _
      have hh1 : max 0 (env.hist a1 b2) ≤ 1 := max_le (by norm_num) (hh a1 b2)
      refine ⟨⟨by nlinarith, by nlinarith⟩, ?_⟩
      rintro (h | h) <;> exact Option.noConfusion h

theorem C7_score_bounds_witness :
    (0 ≤ _combined_score colorMissEnv () () (some ()) (some ()) ∧
      _combined_score colorMissEnv () () (some ()) (some ()) ≤ 1) ∧
    (((some () : Option Unit) = none ∨ (some () : Option Unit) = none) →
      _combined_score colorMissEnv () () (some ()) (some ()) =
        0.6 * max 0 (colorMissEnv.ssim () ())) :=
  C7_score_bounds colorMissEnv () () (some ()) (some ())
    (by decide) (fun a b => by cases a; cases b; decide)

/-- Claim C8: serializing the matrix with `_save_matrix` and reloading it
with `_load_matrix` into a fresh engine yields the identical matrix, so
every query — compatible targets, compatible sources, full matrix — gives
results identical to the original instance, scores exactly preserved. -/
theorem C8_round_trip (m : Matrix) :
    _load_matrix (_save_matrix m) = m ∧
    (∀ A T, get_compatible_targets (_load_matrix (_save_matrix m)) A T =
      get_compatible_targets m A T) ∧
    (∀ t T, get_compatible_sources (_load_matrix (_save_matrix m)) t T =
      get_compatible_sources m t T) ∧
    get_full_matrix (_load_matrix (_save_matrix m)) = get_full_matrix m := by
  have h := load_save m
  exact ⟨h, fun A T => by rw [h], fun t T => by rw [h], by rw [h]⟩

/-- Claim C9: a missing or unreadable colour frame is absorbed —
`load_color_frame_array` returns the all-zeros array instead of raising —
so `register_node` can fail only through the grayscale loads, and a node
registered with an unreadable colour frame gets its scores computed with
the zero array as that colour input. -/
theorem C9_color_soft_miss {G C : Type} (env : Env G C) :
    (∀ p, env.fsColor p = none → load_color_frame_array env p = env.zeroColor) ∧
    (∀ (st : EngineState G C) (n fp lp : String),
      (∃ e, register_node env st n fp lp = Except.error e) ↔
        (env.fsGray fp = none ∨ env.fsGray lp = none)) ∧
    (∀ (n fp lp : String) (gf gl : G),
      env.fsGray fp = some gf → env.fsGray lp = some gl →
      env.fsColor lp = none →
      ∃ st' : EngineState G C,
        register_node env (initState G C) n fp lp = Except.ok st' ∧
        lookupKV st'.colorCache (n ++ "_last") = some env.zeroColor ∧
        st'.matrix = [(n, [(n, round4 (_combined_score env gl gf
          (some env.zeroColor)
          (some (load_color_frame_array env fp))))])]) := by
  have hzero : ∀ p, env.fsColor p = none →
      load_color_frame_array env p = env.zeroColor := by
    intro p hp
    unfold load_color_frame_array
    rw [hp]
  refine ⟨hzero, ?_, ?_⟩
  · intro st n fp lp
    cases hfp : env.fsGray fp with
    | none =>
      refine ⟨fun _ => Or.inl rfl, fun _ => ⟨st, ?_⟩⟩
      unfold register_node
      have herr : register_core env st n fp lp = Except.error st := by
        unfold register_core load_frame_array
        rw [hfp]
      rw [herr]
    | some gf =>
      cases hlp : env.fsGray lp with
      | none =>
        refine ⟨fun _ => Or.inr rfl, fun _ =>
          ⟨{ st with frameCache := setKV st.frameCache (n ++ "_first") gf }, ?_⟩⟩
        unfold register_node
        have herr : register_core env st n fp lp = Except.error
            { st with frameCache := setKV st.frameCache (n ++ "_first") gf } := by
          unfold register_core load_frame_array
          rw [hfp, hlp]
        rw [herr]
      | some gl =>
        constructor
        · rintro ⟨e, he⟩
          unfold register_node at he
          rw [register_core_ok_eq env st n fp lp hfp hlp] at he
          exact Except.noConfusion he
        · rintro (h | h) <;> exact Option.noConfusion h
  · intro n fp lp gf gl hgf hgl hmiss
    refine ⟨_, register_node_single env n fp lp hgf hgl, ?_, ?_⟩
    · show lookupKV [(n ++ "_first", load_color_frame_array env fp),
        (n ++ "_last", load_color_frame_array env lp)] (n ++ "_last") =
        some env.zeroColor
      rw [lookupKV, if_neg (key_first_ne_last n n), lookupKV, if_pos rfl,
        hzero lp hmiss]
    · show [(n, [(n, round4 (_combined_score env gl gf
          (some (load_color_frame_array env lp))
          (some (load_color_frame_array env fp))))])] = _
      rw [hzero lp hmiss]

theorem C9_color_soft_miss_witness :
    load_color_frame_array colorMissEnv "p" = colorMissEnv.zeroColor ∧
    ∃ st' : EngineState Unit Unit,
      register_node colorMissEnv (initState Unit Unit) "v" "f" "l" =
        Except.ok st' ∧
      lookupKV st'.colorCache ("v" ++ "_last") = some colorMissEnv.zeroColor ∧
      st'.matrix = [("v", [("v", round4 (_combined_score colorMissEnv () ()
        (some colorMissEnv.zeroColor)
        (some (load_color_frame_array colorMissEnv "f"))))])] :=
  ⟨(C9_color_soft_miss colorMissEnv).1 "p" rfl,
    (C9_color_soft_miss colorMissEnv).2.2 "v" "f" "l" () () rfl rfl rfl⟩

/-- Claim C10: `remove_node` on an identifier with no matrix row, no column
entries and no cached frames completes without raising and leaves the state
unchanged; and `remove_node` is idempotent — removing the same identifier
twice yields the same state as removing it once. -/
theorem C10_remove_noop_and_idempotent {G C : Type} :
    (∀ (st : EngineState G C) (X : String),
      lookupKV st.matrix X = none →
      (∀ p ∈ st.matrix, lookupKV p.2 X = none) →
      lookupKV st.frameCache (X ++ "_first") = none →
      lookupKV st.frameCache (X ++ "_last") = none →
      lookupKV st.colorCache (X ++ "_first") = none →
      lookupKV st.colorCache (X ++ "_last") = none →
      remove_node st X = st) ∧
    (∀ (st : EngineState G C) (X : String),
      remove_node (remove_node st X) X = remove_node st X) := by
  constructor
  · intro st X hrow hcol hff hfl hcf hcl
    obtain ⟨fc, cc, m⟩ := st
    show (⟨popKV (popKV fc (X ++ "_first")) (X ++ "_last"),
      popKV (popKV cc (X ++ "_first")) (X ++ "_last"),
      (popKV m X).map (fun p => (p.1, popKV p.2 X))⟩ : EngineState G C) =
      ⟨fc, cc, m⟩
    congr 1
    · rw [popKV_of_none hff, popKV_of_none hfl]
    · rw [popKV_of_none hcf, popKV_of_none hcl]
    · rw [popKV_of_none hrow]
      rw [List.map_congr_left (fun p hp => by rw [popKV_of_none (hcol p hp)])]
      simp
  · intro st X
    obtain ⟨fc, cc, m⟩ := st
    show (⟨popKV (popKV (popKV (popKV fc (X ++ "_first")) (X ++ "_last"))
        (X ++ "_first")) (X ++ "_last"),
      popKV (popKV (popKV (popKV cc (X ++ "_first")) (X ++ "_last"))
        (X ++ "_first")) (X ++ "_last"),
      (popKV ((popKV m X).map (fun p => (p.1, popKV p.2 X))) X).map
        (fun p => (p.1, popKV p.2 X))⟩ : EngineState G C) =
      ⟨popKV (popKV fc (X ++ "_first")) (X ++ "_last"),
        popKV (popKV cc (X ++ "_first")) (X ++ "_last"),
        (popKV m X).map (fun p => (p.1, popKV p.2 X))⟩
    congr 1
    · exact popKV_pair_idem _ _ _
    · exact popKV_pair_idem _ _ _
    · rw [popKV_map_fst, popKV_idem, List.map_map]
      apply List.map_congr_left
      intro p _
      show (p.1, popKV (popKV p.2 X) X) = (p.1, popKV p.2 X)
      rw [popKV_idem]

theorem C10_remove_noop_witness :
    remove_node (initState Unit Unit) "x" = initState Unit Unit :=
  (C10_remove_noop_and_idempotent).1 (initState Unit Unit) "x" rfl
    (fun p hp => absurd hp (List.not_mem_nil p)) rfl rfl rfl rfl

end SimilarityService
